import Mathlib

/-!
# godash: capture filter, frame classifier and dispatch

A shallow embedding of `main.go`: the filter construction of `main`, the per-frame
matching of `capturePackages`, and `makeRequest`.

Go strings are modelled by `String`. The strings of the device table come out of
`encoding/json`, which only produces valid UTF-8, so a sequence of Unicode characters
represents them exactly; where the Go code indexes bytes (`net.ParseMAC`), the model
works on the UTF-8 bytes of the string.

The functions of the Go standard library that `main.go` calls are not part of the
repository. The short, pure ones (`net.ParseMAC`, `net.HardwareAddr.String`, the ASCII
part of `strings.ToUpper`, `http.NewRequest`'s method handling) are transcribed; the
large or effectful ones (Unicode case tables, `url.Parse`, `json.Marshal`, header key
canonicalisation, the HTTP round trip, running `curl`) are parameters.
-/

namespace Godash

/-! ## Data model -/

/-- A Go `map[string]string`. `none` is the nil map; the list holds the entries in the
order in which a `range` over the map visits them (Go leaves that order unspecified, so
every order is a possible run). -/
abbrev StringMap := Option (List (String × String))

/-- Button is a Dash, from Amazon (`type Button struct`). -/
structure Button where
  Name : String
  URL : String
  Username : String
  MAC : String
  Method : String
  Header : StringMap
  Data : StringMap
deriving DecidableEq, Repr

/-- Configuration is Network Interface and Buttons (`type Configuration struct`). -/
structure Configuration where
  Buttons : List Button
  NIC : String
deriving DecidableEq, Repr

/-- A hardware address `net.HardwareAddr`: a slice of bytes. -/
abbrev HardwareAddr := List Nat

/-! ## Standard library: `net` -/

/-- The UTF-8 encoding of one character: the bytes a Go string holds for it. -/
def utf8Bytes (c : Char) : List Nat :=
  let v := c.toNat
  if v < 0x80 then [v]
  else if v < 0x800 then [0xC0 + v / 64, 0x80 + v % 64]
  else if v < 0x10000 then [0xE0 + v / 4096, 0x80 + v / 64 % 64, 0x80 + v % 64]
  else [0xF0 + v / 262144, 0x80 + v / 4096 % 64, 0x80 + v / 64 % 64, 0x80 + v % 64]

/-- The bytes of a Go string. -/
def bytesOf (s : String) : List Nat :=
  s.data.flatMap utf8Bytes

/-- The constant `big` of `net/parse.go`: bigger than we need, not too big to worry about
overflow. -/
def big : Nat := 0xFFFFFF

/-- The loop of `xtoi` (`net/parse.go`), started with `n` accumulated and `i` characters
consumed, followed by the code after the loop. Returns number, characters consumed,
success. -/
def xtoiFrom : List Nat → Nat → Nat → Nat × Nat × Bool
  | [], n, i => if i = 0 then (0, i, false) else (n, i, true)
  | c :: s, n, i =>
    if 48 ≤ c ∧ c ≤ 57 then
      let n := n * 16 + (c - 48)
      if n ≥ big then (0, i, false) else xtoiFrom s n (i + 1)
    else if 97 ≤ c ∧ c ≤ 102 then
      let n := n * 16 + (c - 97) + 10
      if n ≥ big then (0, i, false) else xtoiFrom s n (i + 1)
    else if 65 ≤ c ∧ c ≤ 70 then
      let n := n * 16 + (c - 65) + 10
      if n ≥ big then (0, i, false) else xtoiFrom s n (i + 1)
    else if i = 0 then (0, i, false) else (n, i, true)

/-- Hexadecimal to integer (`xtoi`). -/
def xtoi (s : List Nat) : Nat × Nat × Bool :=
  xtoiFrom s 0 0

/-- The function `xtoi2` converts the next two hex digits of `s` into a byte. If `s` is
longer than 2 bytes then the third byte must be `e`. -/
def xtoi2 (s : List Nat) (e : Nat) : Nat × Bool :=
  if s.length > 2 ∧ s.getD 2 0 ≠ e then (0, false)
  else
    match xtoi (s.take 2) with
    | (n, ei, ok) => (n % 256, ok && ei == 2)

/-- The loop of `ParseMAC` for the forms `00:00:5e:00:53:01` and `00-00-5e-00-53-01`:
`k` bytes remain to be read, `x` is the offset into `s`. `none` is `goto error`. -/
def parseTriples (s : List Nat) : Nat → Nat → Option HardwareAddr
  | 0, _ => some []
  | k + 1, x =>
    match xtoi2 (s.drop x) (s.getD 2 0) with
    | (_, false) => none
    | (b, true) => (parseTriples s k (x + 3)).map (fun hw => b :: hw)

/-- The loop of `ParseMAC` for the form `0000.5e00.5301`: `k` pairs of bytes remain to
be read, `x` is the offset into `s`. `none` is `goto error`. -/
def parseQuads (s : List Nat) : Nat → Nat → Option HardwareAddr
  | 0, _ => some []
  | k + 1, x =>
    match xtoi2 ((s.drop x).take 2) 0 with
    | (_, false) => none
    | (b0, true) =>
      match xtoi2 (s.drop (x + 2)) (s.getD 4 0) with
      | (_, false) => none
      | (b1, true) => (parseQuads s k (x + 5)).map (fun hw => b0 :: b1 :: hw)

/-- The error type `net.AddrError`. -/
structure AddrError where
  Err : String
  Addr : String
deriving DecidableEq, Repr

/-- The method `(*AddrError).Error`, as in current Go releases. -/
def AddrError.Error (e : AddrError) : String :=
  if e.Addr ≠ "" then "address " ++ e.Addr ++ ": " ++ e.Err else e.Err

/-- The function `net.ParseMAC`: parses `s` as an IEEE 802 MAC-48, EUI-48, EUI-64, or a
20-octet IP over InfiniBand link-layer address. -/
def ParseMAC (str : String) : Except AddrError HardwareAddr :=
  let s := bytesOf str
  let error : Except AddrError HardwareAddr := .error ⟨"invalid MAC address", str⟩
  if s.length < 14 then error
  else if s.getD 2 0 = 58 ∨ s.getD 2 0 = 45 then
    if (s.length + 1) % 3 ≠ 0 then error
    else
      let n := (s.length + 1) / 3
      if n ≠ 6 ∧ n ≠ 8 ∧ n ≠ 20 then error
      else
        match parseTriples s n 0 with
        | none => error
        | some hw => .ok hw
  else if s.getD 4 0 = 46 then
    if (s.length + 1) % 5 ≠ 0 then error
    else
      let n := 2 * (s.length + 1) / 5
      if n ≠ 6 ∧ n ≠ 8 ∧ n ≠ 20 then error
      else
        match parseQuads s (n / 2) 0 with
        | none => error
        | some hw => .ok hw
  else error

/-- The constant `hexDigit` of `net`. -/
def hexDigit : String := "0123456789abcdef"

/-- The byte `hexDigit[i]`, as a character. The index is a nibble of a byte, so it is
below 16. -/
def hexDigitAt (i : Nat) : Char :=
  hexDigit.data.getD i '0'

/-- The loop of `HardwareAddr.String`: `i` is the index of the next byte. -/
def hardwareAddrChars : HardwareAddr → Nat → List Char
  | [], _ => []
  | b :: rest, i =>
    (if i > 0 then [':'] else []) ++ [hexDigitAt (b / 16), hexDigitAt (b % 16)]
      ++ hardwareAddrChars rest (i + 1)

/-- The method `net.HardwareAddr.String`: lower-case hex bytes joined by colons. -/
def HardwareAddr_String (a : HardwareAddr) : String :=
  if a.length = 0 then "" else String.mk (hardwareAddrChars a 0)

/-! ## Standard library: `strings` -/

/-- The ASCII case of `unicode.ToUpper`. -/
def asciiToUpper (c : Char) : Char :=
  if 'a' ≤ c ∧ c ≤ 'z' then Char.ofNat (c.toNat - 32) else c

/-- The function `unicode.ToUpper`: for an ASCII character the shift of `a`..`z`; for the
others the Unicode case table of package `unicode`, the parameter `unicodeUpper`. -/
def upperRune (unicodeUpper : Char → Char) (c : Char) : Char :=
  if c.toNat < 128 then asciiToUpper c else unicodeUpper c

/-- The function `strings.ToUpper`: every character mapped to its upper case. -/
def ToUpper (unicodeUpper : Char → Char) (s : String) : String :=
  String.mk (s.data.map (upperRune unicodeUpper))

/-! ## `main`: the capture filter -/

/-- What `main` did: the message of the `log.Fatalf` that ended the process, if any, and
the calls of `capturePackages` it made (interface, filter, buttons). -/
structure MainRun where
  fatal : Option String
  calls : List (String × String × List Button)
deriving DecidableEq, Repr

/-- The `for _, button := range configuration.Buttons` loop of `main`, started with the
filter built so far. `.error` carries the message of `log.Fatalf`. -/
def filterLoop : List Button → String → Except String String
  | [], filter => .ok filter
  | button :: rest, filter =>
    match ParseMAC button.MAC with
    | .error err =>
      .error ("Unable to parse MAC: " ++ button.MAC ++ " (" ++ err.Error ++ ")\n")
    | .ok MAC =>
      let filter := if filter ≠ "arp and (" then filter ++ " or " else filter
      filterLoop rest (filter ++ ("(ether src host " ++ HardwareAddr_String MAC ++ ")"))

/-- The function `main`, from the loaded configuration on. -/
def main (configuration : Configuration) : MainRun :=
  match filterLoop configuration.Buttons "arp and (" with
  | .error msg => { fatal := some msg, calls := [] }
  | .ok filter =>
    { fatal := none,
      calls := [(configuration.NIC, filter ++ ")", configuration.Buttons)] }

/-! ## `capturePackages`: the frame classifier and the capture loop -/

/-- The decoded Ethernet layer `layers.Ethernet` of a packet; only `SrcMAC` is read. -/
structure Ethernet where
  SrcMAC : HardwareAddr
deriving DecidableEq, Repr

/-- A packet delivered by the packet source: `ethernetLayer` is the result of
`packet.Layer(layers.LayerTypeEthernet)` asserted to `*layers.Ethernet`, `none` (a nil
pointer) when the packet has no such layer. -/
structure Packet where
  ethernetLayer : Option Ethernet
deriving DecidableEq, Repr

/-- A run-time panic of the Go program. -/
inductive Panic
  | nilPointerDereference
deriving DecidableEq, Repr

/-- What the capture loop does that can be observed: a text handed to the logger, and a
`go makeRequest(url, username, method, header, data)` statement. -/
inductive Event
  | log (line : String)
  | goMakeRequest (url username method : String) (header data : StringMap)
deriving DecidableEq, Repr

/-- The body of `if strings.ToUpper(...) == strings.ToUpper(button.MAC)`: the log line
and the spawned request of one button. -/
def pressed (button : Button) : List Event :=
  [ .log ("Button " ++ button.Name ++ " was pressed.\n"),
    .goMakeRequest button.URL button.Username button.Method button.Header button.Data ]

/-- The `for _, button := range buttons` loop that `capturePackages` runs for one
packet. `ethernetPacket.SrcMAC` dereferences the pointer, which panics when it is nil. -/
def buttonLoop (unicodeUpper : Char → Char) (ethernetPacket : Option Ethernet) :
    List Button → Except Panic (List Event)
  | [] => .ok []
  | button :: rest =>
    match ethernetPacket with
    | none => .error .nilPointerDereference
    | some eth =>
      if ToUpper unicodeUpper (HardwareAddr_String eth.SrcMAC)
          = ToUpper unicodeUpper button.MAC then
        .ok (pressed button)
      else buttonLoop unicodeUpper ethernetPacket rest

/-- A run of the capture loop: the events in order, and the panic that ended the process,
if any. -/
structure CaptureRun where
  events : List Event
  panic : Option Panic
deriving DecidableEq, Repr

/-- The `for packet := range packetSource.Packets()` loop of `capturePackages` over the
packets delivered. -/
def packetLoop (unicodeUpper : Char → Char) (buttons : List Button) :
    List Packet → CaptureRun
  | [] => { events := [], panic := none }
  | packet :: rest =>
    match buttonLoop unicodeUpper packet.ethernetLayer buttons with
    | .error p => { events := [], panic := some p }
    | .ok evs =>
      let run := packetLoop unicodeUpper buttons rest
      { events := evs ++ run.events, panic := run.panic }

/-- The function `capturePackages`, once the capture handle is open and the filter set,
on the packets that the packet source delivers. -/
def capturePackages (unicodeUpper : Char → Char) (_NIC _filter : String)
    (buttons : List Button) (packets : List Packet) : CaptureRun :=
  packetLoop unicodeUpper buttons packets

/-! ## `makeRequest`: the dispatch task -/

/-- The header map `http.Header`: canonical key to values. -/
abbrev Header := List (String × List String)

/-- The parts of `http.Request` that `makeRequest` determines. -/
structure Request where
  Method : String
  URL : String
  Header : Header
  Body : String
deriving DecidableEq, Repr

/-- What became of an `http.Response`: the result of `ioutil.ReadAll(res.Body)` and the
error of `res.Body.Close()`, if any. -/
structure Response where
  readAll : Except String String
  close : Option String

/-- The library and the outside world, as far as `makeRequest` meets them. -/
structure Env where
  /-- The result of `cmd.Output()` for `curl` with the given arguments. -/
  curlOutput : List String → Except String String
  /-- The function `json.Marshal` on a `map[string]string`; `none` is a nil result. -/
  jsonMarshal : StringMap → Option String
  /-- Whether `url.Parse` accepts the string. -/
  urlParses : String → Bool
  /-- The function `textproto.CanonicalMIMEHeaderKey`. -/
  canonicalKey : String → String
  /-- The result of `client.Do(req)`. -/
  clientDo : Request → Except String Response

/-- The token characters of `httpguts.IsTokenRune`: ASCII letters, digits and the
punctuation of an HTTP token (the codes 39 and 96 are the apostrophe and the backquote). -/
def isTokenRune (c : Char) : Bool :=
  c.toNat < 128 &&
    (c.isAlphanum || "!#$%&*+-.^_|~".data.contains c || c.toNat == 39 || c.toNat == 96)

/-- The function `validMethod` of `net/http`: a non-empty token. -/
def validMethod (method : String) : Bool :=
  method.length > 0 && method.data.all isTokenRune

/-- The function `http.NewRequest`: the request, or `none` for the nil request that comes
with an error (the error value itself is never read by `makeRequest`). -/
def NewRequest (env : Env) (method url : String) (body : String) : Option Request :=
  let method := if method = "" then "GET" else method
  if !validMethod method then none
  else if !env.urlParses url then none
  else some { Method := method, URL := url, Header := [], Body := body }

/-- The method `Header.Set`: the values of the canonical key are replaced by `value`. -/
def Header.Set (env : Env) (h : Header) (key value : String) : Header :=
  (env.canonicalKey key, [value]) :: h.filter (fun e => e.1 ≠ env.canonicalKey key)

/-- The values that the header map holds under a canonical key, `h[canonical]`. -/
def Header.values (h : Header) (canonical : String) : Option (List String) :=
  h.lookup canonical

/-- What a dispatch task does that can be observed: a text handed to the logger (which
puts a time stamp before it and a newline after it when it has none), a command run to
completion, and a request handed to `client.Do`. -/
inductive Effect
  | log (line : String)
  | command (name : String) (args : List String)
  | send (req : Request)
deriving DecidableEq, Repr

/-- A run of `makeRequest`: the effects in order, and the panic that ended it, if any. -/
structure TaskRun where
  effects : List Effect
  panic : Option Panic
deriving DecidableEq, Repr

/-- The `for key, value := range header` loop of `makeRequest`: `req.Header.Set`
dereferences `req`, which panics when it is nil. Returns the log lines written and the
request after the loop. -/
def headerLoop (env : Env) : List (String × String) → Option Request →
    List Effect × Except Panic (Option Request)
  | [], req => ([], .ok req)
  | (key, value) :: rest, req =>
    let line := Effect.log ("     " ++ key ++ "  ->  " ++ value ++ "\n")
    match req with
    | none => ([line], .error .nilPointerDereference)
    | some r =>
      match headerLoop env rest (some { r with Header := Header.Set env r.Header key value }) with
      | (effects, result) => (line :: effects, result)

/-- The rest of `makeRequest` once the request is complete: `client.Do`, the deferred
close and the reading of the response. -/
def doRequest (env : Env) (url : String) (req : Request) : List Effect :=
  match env.clientDo req with
  | .error err => [.send req, .log ("Error requesting URL " ++ url ++ " -> " ++ err ++ "\n")]
  | .ok res =>
    [.send req] ++
      (match res.readAll with
        | .error err => [Effect.log ("Error requesting URL " ++ url ++ " -> " ++ err ++ "\n")]
        | .ok output => [Effect.log ("Result: " ++ output ++ "\n")]) ++
      (match res.close with
        | some err => [Effect.log ("Failed to close HTTP response body: " ++ err ++ "\n")]
        | none => [])

/-- The block `if header != nil` of `makeRequest`: the log lines written and the
request after it. -/
def addHeaders (env : Env) (header : StringMap) (req : Option Request) :
    List Effect × Except Panic (Option Request) :=
  match header with
  | some entries =>
    match headerLoop env entries req with
    | (effects, result) => (Effect.log "Adding headers:\n" :: effects, result)
  | none => ([], .ok req)

/-- The function `makeRequest`. -/
def makeRequest (env : Env) (url username method : String) (header data : StringMap) :
    TaskRun :=
  if username ≠ "" then
    let args := ["-u", username, "--digest", url]
    match env.curlOutput args with
    | .error err =>
      { effects := [.command "curl" args,
          .log ("Error Curling URL " ++ url ++ " -> " ++ err ++ "\n")], panic := none }
    | .ok output =>
      { effects := [.command "curl" args, .log ("Curl Output: " ++ output ++ "\n")],
        panic := none }
  else
    let body := env.jsonMarshal data
    let sending := match body with
      | some b => [Effect.log ("Sending data: " ++ b)]
      | none => []
    let req := NewRequest env method url (body.getD "")
    match addHeaders env header req with
    | (adding, .error p) => { effects := sending ++ adding, panic := some p }
    | (adding, .ok none) =>
      { effects := sending ++ adding, panic := some .nilPointerDereference }
    | (adding, .ok (some r)) =>
      let r := { r with Header := Header.Set env r.Header "Content-Type" "application/json" }
      { effects := sending ++ adding ++ doRequest env url r, panic := none }

deriving instance DecidableEq for Except

/-- An environment for evaluating the definitions at concrete inputs: `curl` and the
server cannot be reached, every URL parses, header keys are taken as canonical, and the
payload is rendered as a fixed text. -/
def offlineEnv : Env where
  curlOutput := fun _ => .error "exit status 7"
  jsonMarshal := fun _ => some "null"
  urlParses := fun _ => true
  canonicalKey := fun k => k
  clientDo := fun _ => .error "connection refused"

/-! ## Specification-side definitions -/

/-- Two strings are equal ignoring letter case, in the words of the specification: they
have the same length and, position by position, characters with the same upper case. -/
def equalIgnoringCase (unicodeUpper : Char → Char) : List Char → List Char → Bool
  | [], [] => true
  | c :: s, d :: t =>
    (upperRune unicodeUpper c == upperRune unicodeUpper d)
      && equalIgnoringCase unicodeUpper s t
  | _, _ => false

/-- Whether the MAC string of a device parses as a hardware address. -/
def parses (b : Button) : Bool :=
  match ParseMAC b.MAC with
  | .ok _ => true
  | .error _ => false

/-- The canonical address of a device: the string form of its parsed MAC (empty when the
MAC does not parse). -/
def canonicalAddress (b : Button) : String :=
  match ParseMAC b.MAC with
  | .ok hw => HardwareAddr_String hw
  | .error _ => ""

/-- The source-address clause of a device, in the words of the specification. -/
def sourceClause (b : Button) : String :=
  "(ether src host " ++ canonicalAddress b ++ ")"

/-- The filter of the specification: the ARP restriction around the clauses of the
devices, in table order, joined by `or`. -/
def specFilter (buttons : List Button) : String :=
  "arp and (" ++ " or ".intercalate (buttons.map sourceClause) ++ ")"

/-- The message with which `main` ends when the MAC of the device does not parse. -/
def parseFatal (b : Button) : String :=
  match ParseMAC b.MAC with
  | .ok _ => ""
  | .error err => "Unable to parse MAC: " ++ b.MAC ++ " (" ++ err.Error ++ ")\n"

/-- The number of positions of `s` at which `pat` occurs. -/
def countOccurrences (pat : List Char) : List Char → Nat
  | [] => 0
  | c :: s => (if pat.isPrefixOf (c :: s) then 1 else 0) + countOccurrences pat s

/-- The commands that a run of `makeRequest` built, in order. -/
def commandsOf : List Effect → List (String × List String)
  | [] => []
  | .command name args :: rest => (name, args) :: commandsOf rest
  | _ :: rest => commandsOf rest

/-- The requests that a run of `makeRequest` handed to `client.Do`, in order. -/
def requestsOf : List Effect → List Request
  | [] => []
  | .send req :: rest => req :: requestsOf rest
  | _ :: rest => requestsOf rest

/-- The characters of a canonical hardware address: lower-case hex digits and the colon. -/
def addressChars : List Char := "0123456789abcdef:".data

/-- One step of the filter loop of `main` on a device whose MAC parses. -/
def filterStep (filter : String) (b : Button) : String :=
  (if filter ≠ "arp and (" then filter ++ " or " else filter) ++ sourceClause b

/-- Whether a filter has an empty parenthesised operand, `()`: a malformed expression. -/
def hasEmptyOperand (filter : String) : Bool :=
  0 < countOccurrences "()".data filter.data

/-- A configuration with two devices, one configured in colon form and upper case, one in
dash form. -/
def twoButtons : Configuration where
  Buttons :=
    [ { Name := "Dash1", URL := "http://example.test/trigger", Username := "",
        MAC := "AA:BB:CC:DD:EE:FF", Method := "POST", Header := none, Data := none },
      { Name := "Dash2", URL := "http://example.test/other", Username := "admin",
        MAC := "00-00-5e-00-53-01", Method := "", Header := none, Data := none } ]
  NIC := "eth0"

/-! ## Theorems: the frame classifier -/

theorem toUpper_eq_iff (up : Char → Char) (s t : String) :
    ToUpper up s = ToUpper up t ↔ equalIgnoringCase up s.data t.data = true := by
  have key : ∀ a b : List Char,
      a.map (upperRune up) = b.map (upperRune up) ↔ equalIgnoringCase up a b = true := by
    intro a
    induction a with
    | nil => intro b; cases b <;> simp [equalIgnoringCase]
    | cons c a ih =>
      intro b
      cases b with
      | nil => simp [equalIgnoringCase]
      | cons d b => simp [equalIgnoringCase, ih b]
  unfold ToUpper
  rw [← key]
  constructor
  · intro h; exact congrArg String.data h
  · intro h; rw [h]

theorem buttonLoop_eq_find (up : Char → Char) (eth : Ethernet) (buttons : List Button) :
    buttonLoop up (some eth) buttons
      = .ok (match buttons.find? (fun b =>
            equalIgnoringCase up (HardwareAddr_String eth.SrcMAC).data b.MAC.data) with
          | some b => pressed b
          | none => []) := by
  induction buttons with
  | nil => rfl
  | cons b rest ih =>
    by_cases h : equalIgnoringCase up (HardwareAddr_String eth.SrcMAC).data b.MAC.data = true
    · have h2 := (toUpper_eq_iff up _ _).mpr h
      simp [buttonLoop, List.find?, h, h2]
    · have h2 : ¬ ToUpper up (HardwareAddr_String eth.SrcMAC) = ToUpper up b.MAC :=
        fun e => h ((toUpper_eq_iff up _ _).mp e)
      simp only [Bool.not_eq_true] at h
      simp [buttonLoop, List.find?, h, h2, ih]

/-- C1. For every device table and every frame with an Ethernet layer, the per-frame
matching of `capturePackages` acts on the first device, in table order, whose MAC string
equals the string of the frame's source address ignoring letter case, and on no device
when no entry is equal ignoring case. In particular the frame address AA:BB:CC:DD:EE:FF
matches a device configured as `aa:bb:cc:dd:ee:ff` (and one configured in upper case),
and of two devices with the frame's address the first one is selected. -/
theorem classifier_first_match_ignoring_case (up : Char → Char) (eth : Ethernet)
    (buttons : List Button) :
    buttonLoop up (some eth) buttons
        = .ok (match buttons.find? (fun b =>
              equalIgnoringCase up (HardwareAddr_String eth.SrcMAC).data b.MAC.data) with
            | some b => pressed b
            | none => [])
    ∧ (∀ (b : Button) (rest : List Button),
        buttonLoop up (some ⟨[0xAA, 0xBB, 0xCC, 0xDD, 0xEE, 0xFF]⟩)
            ({ b with MAC := "aa:bb:cc:dd:ee:ff" } :: rest) = .ok (pressed b)
        ∧ buttonLoop up (some ⟨[0xAA, 0xBB, 0xCC, 0xDD, 0xEE, 0xFF]⟩)
            ({ b with MAC := "AA:BB:CC:DD:EE:FF" } :: rest) = .ok (pressed b))
    ∧ (∀ (deviceA deviceB : Button) (rest : List Button),
        buttonLoop up (some eth)
            ({ deviceA with MAC := HardwareAddr_String eth.SrcMAC }
              :: { deviceB with MAC := HardwareAddr_String eth.SrcMAC } :: rest)
          = .ok (pressed deviceA)) := by
  refine ⟨buttonLoop_eq_find up eth buttons, ?_, ?_⟩
  · intro b rest
    constructor <;> rfl
  · intro a b rest
    simp [buttonLoop, pressed]

/-- C6. For every device table and every finite sequence of frames that all have an
Ethernet layer, the events of the capture loop are, in frame order, the log line and the
spawned `makeRequest` of the first matching device for every frame that matches one
(with that device's Name, URL, Username, Method, Header and Data), and nothing for a
frame that matches none; the loop does not panic. Two consecutive frames of the same
device give its events twice: nothing is deduplicated. -/
theorem capture_one_dispatch_per_matching_frame (up : Char → Char) (NIC filter : String)
    (buttons : List Button) (frames : List Ethernet) :
    capturePackages up NIC filter buttons (frames.map fun eth => ⟨some eth⟩)
        = { events := frames.flatMap fun eth =>
              match buttons.find? (fun b =>
                equalIgnoringCase up (HardwareAddr_String eth.SrcMAC).data b.MAC.data) with
              | some b =>
                [ .log ("Button " ++ b.Name ++ " was pressed.\n"),
                  .goMakeRequest b.URL b.Username b.Method b.Header b.Data ]
              | none => [],
            panic := none }
    ∧ (∀ (eth : Ethernet) (b : Button),
        buttons.find? (fun b =>
            equalIgnoringCase up (HardwareAddr_String eth.SrcMAC).data b.MAC.data) = some b →
        capturePackages up NIC filter buttons [⟨some eth⟩, ⟨some eth⟩]
          = { events := pressed b ++ pressed b, panic := none }) := by
  constructor
  · unfold capturePackages
    induction frames with
    | nil => rfl
    | cons eth rest ih =>
      simp only [List.map_cons, packetLoop, buttonLoop_eq_find, ih, List.flatMap_cons]
      cases buttons.find? (fun b =>
        equalIgnoringCase up (HardwareAddr_String eth.SrcMAC).data b.MAC.data) <;> rfl
  · intro eth b h
    simp [capturePackages, packetLoop, buttonLoop_eq_find, h]

/-- C4 (the code departs from the claim). A frame without an Ethernet layer makes the
per-frame step panic as soon as the device table has an entry: `ethernetPacket` is nil
and the first iteration reads `ethernetPacket.SrcMAC`. The capture loop ends there, and
the frames after it are not looked at. Only for the empty table does the step yield
"no match". -/
theorem frame_without_ethernet_layer_panics (up : Char → Char) (NIC filter : String)
    (button : Button) (rest : List Button) (packets : List Packet) :
    buttonLoop up none (button :: rest) = .error .nilPointerDereference
    ∧ capturePackages up NIC filter (button :: rest) (⟨none⟩ :: packets)
        = { events := [], panic := some .nilPointerDereference }
    ∧ buttonLoop up none [] = .ok [] := by
  refine ⟨rfl, rfl, rfl⟩

/-- C3 (the code departs from the claim). A device configured as `00-00-5E-00-53-01`
parses, so `main` builds the filter clause for the address `00:00:5e:00:53:01`; a frame
with exactly that source address, which the filter admits, matches no device in the
per-frame matching, because the frame's string is compared with the raw configured
string. -/
theorem admitted_frame_of_dash_form_device_unmatched (up : Char → Char) (NIC : String)
    (b : Button) :
    ParseMAC "00-00-5E-00-53-01" = .ok [0x00, 0x00, 0x5e, 0x00, 0x53, 0x01]
    ∧ main ⟨[{ b with MAC := "00-00-5E-00-53-01" }], NIC⟩
        = { fatal := none,
            calls := [(NIC, "arp and ((ether src host 00:00:5e:00:53:01))",
              [{ b with MAC := "00-00-5E-00-53-01" }])] }
    ∧ buttonLoop up (some ⟨[0x00, 0x00, 0x5e, 0x00, 0x53, 0x01]⟩)
        [{ b with MAC := "00-00-5E-00-53-01" }] = .ok [] := by
  have hparse : ParseMAC "00-00-5E-00-53-01" = .ok [0x00, 0x00, 0x5e, 0x00, 0x53, 0x01] := by
    decide
  have hfilter : "arp and (" ++ ("(ether src host "
      ++ HardwareAddr_String [0x00, 0x00, 0x5e, 0x00, 0x53, 0x01] ++ ")") ++ ")"
      = "arp and ((ether src host 00:00:5e:00:53:01))" := by decide
  refine ⟨hparse, ?_, rfl⟩
  simp only [main, filterLoop, hparse, ne_eq, not_true_eq_false, if_false, hfilter]

/-! ## Theorems: the capture filter -/

theorem filterLoop_eq (buttons : List Button) (filter : String) :
    filterLoop buttons filter
      = match buttons.find? (fun b => !parses b) with
        | some b => .error (parseFatal b)
        | none => .ok (buttons.foldl filterStep filter) := by
  induction buttons generalizing filter with
  | nil => rfl
  | cons b rest ih =>
    cases h : ParseMAC b.MAC with
    | error err => simp [filterLoop, List.find?, parses, parseFatal, h]
    | ok hw =>
      simp [filterLoop, List.find?, parses, h, ih, filterStep, sourceClause, canonicalAddress]

theorem intercalate_go_append (x acc s : String) (l : List String) :
    String.intercalate.go (x ++ acc) s l = x ++ String.intercalate.go acc s l := by
  induction l generalizing acc with
  | nil => rfl
  | cons a l ih => simp only [String.intercalate.go, String.append_assoc, ih]

theorem foldl_filterStep (buttons : List Button) (filter : String)
    (h : "arp and (".length < filter.length) :
    buttons.foldl filterStep filter
      = String.intercalate.go filter " or " (buttons.map sourceClause) := by
  induction buttons generalizing filter with
  | nil => rfl
  | cons b rest ih =>
    have hne : filter ≠ "arp and (" := by
      intro e; rw [e] at h; exact lt_irrefl _ h
    simp only [List.foldl_cons, List.map_cons, String.intercalate.go, filterStep, hne,
      ne_eq, not_false_eq_true, if_true]
    apply ih
    simp only [String.length_append]
    omega

theorem foldl_filterStep_base (buttons : List Button) :
    buttons.foldl filterStep "arp and (" ++ ")" = specFilter buttons := by
  cases buttons with
  | nil => rfl
  | cons b rest =>
    have hlen : "arp and (".length < ("arp and (" ++ sourceClause b).length := by
      simp only [String.length_append, sourceClause]
      have : 0 < "(ether src host ".length := by decide
      omega
    simp only [List.foldl_cons, specFilter, List.map_cons, String.intercalate]
    rw [show filterStep "arp and (" b = "arp and (" ++ sourceClause b from by
      simp [filterStep]]
    rw [foldl_filterStep rest _ hlen, intercalate_go_append]

theorem main_eq (configuration : Configuration) :
    main configuration
      = match configuration.Buttons.find? (fun b => !parses b) with
        | some b => { fatal := some (parseFatal b), calls := [] }
        | none =>
          { fatal := none,
            calls := [(configuration.NIC, specFilter configuration.Buttons,
              configuration.Buttons)] } := by
  unfold main
  rw [filterLoop_eq]
  cases configuration.Buttons.find? (fun b => !parses b) with
  | some b => rfl
  | none => simp only [foldl_filterStep_base]


theorem count_skip (p : Char) (ps xs r : List Char) (h : ∀ c ∈ xs, c ≠ p) :
    countOccurrences (p :: ps) (xs ++ r) = countOccurrences (p :: ps) r := by
  induction xs with
  | nil => rfl
  | cons c xs ih =>
    have hc : c ≠ p := h c (List.mem_cons_self _ _)
    have hc2 : (p == c) = false := by simpa using fun e => hc e.symm
    simp only [List.cons_append, countOccurrences, List.isPrefixOf, hc2, Bool.false_and]
    simpa using ih (fun d hd => h d (List.mem_cons_of_mem _ hd))

theorem addressChar_ne (c d : Char) (hc : c ∈ addressChars) (hd : d ∉ addressChars) :
    c ≠ d := fun e => hd (e ▸ hc)

theorem count_address_close (p : Char) (ps X T : List Char) (hp : p ∉ addressChars)
    (hp2 : p ≠ ')') (hX : ∀ c ∈ X, c ∈ addressChars) :
    countOccurrences (p :: ps) (X ++ ')' :: T) = countOccurrences (p :: ps) T := by
  have : X ++ ')' :: T = (X ++ [')']) ++ T := by simp
  rw [this]
  apply count_skip
  intro c hc
  rcases List.mem_append.mp hc with h | h
  · exact addressChar_ne c p (hX c h) hp
  · simp only [List.mem_singleton] at h
    rw [h]; exact fun e => hp2 e.symm

theorem count_or_segment (X T : List Char) (hX : ∀ c ∈ X, c ∈ addressChars) :
    countOccurrences " or ".data (" or ".data ++ "(ether src host ".data ++ X ++ ')' :: T)
      = 1 + countOccurrences " or ".data T := by
  have h1 : " or ".data = [' ', 'o', 'r', ' '] := rfl
  have h2 : "(ether src host ".data
      = ['(', 'e', 't', 'h', 'e', 'r', ' ', 's', 'r', 'c', ' ', 'h', 'o', 's', 't', ' '] := rfl
  have hrest := count_address_close ' ' ['o', 'r', ' '] X T (by decide) (by decide) hX
  have hhead : List.isPrefixOf ['o', 'r', ' '] (X ++ ')' :: T) = false := by
    cases X with
    | nil => simp [List.isPrefixOf]
    | cons c X =>
      have : c ≠ 'o' := addressChar_ne c 'o' (hX c (List.mem_cons_self _ _)) (by decide)
      have hc2 : ('o' == c) = false := by simpa using fun e => this e.symm
      simp [List.isPrefixOf, hc2]
  rw [h1, h2]
  simp [countOccurrences, List.isPrefixOf, hhead, hrest]

theorem count_clause_segment (X T : List Char) (hX : ∀ c ∈ X, c ∈ addressChars) :
    countOccurrences "(ether src host ".data
        (" or ".data ++ "(ether src host ".data ++ X ++ ')' :: T)
      = 1 + countOccurrences "(ether src host ".data T := by
  have h1 : " or ".data = [' ', 'o', 'r', ' '] := rfl
  have h2 : "(ether src host ".data
      = ['(', 'e', 't', 'h', 'e', 'r', ' ', 's', 'r', 'c', ' ', 'h', 'o', 's', 't', ' '] := rfl
  have hrest := count_address_close '('
    ['e', 't', 'h', 'e', 'r', ' ', 's', 'r', 'c', ' ', 'h', 'o', 's', 't', ' '] X T
    (by decide) (by decide) hX
  rw [h1, h2]
  simp [countOccurrences, List.isPrefixOf, hrest]

theorem count_or_head (X T : List Char) (hX : ∀ c ∈ X, c ∈ addressChars) :
    countOccurrences " or ".data ("arp and (".data ++ "(ether src host ".data ++ X ++ ')' :: T)
      = countOccurrences " or ".data T := by
  have h1 : " or ".data = [' ', 'o', 'r', ' '] := rfl
  have h2 : "(ether src host ".data
      = ['(', 'e', 't', 'h', 'e', 'r', ' ', 's', 'r', 'c', ' ', 'h', 'o', 's', 't', ' '] := rfl
  have h3 : "arp and (".data = ['a', 'r', 'p', ' ', 'a', 'n', 'd', ' ', '('] := rfl
  have hrest := count_address_close ' ' ['o', 'r', ' '] X T (by decide) (by decide) hX
  have hhead : List.isPrefixOf ['o', 'r', ' '] (X ++ ')' :: T) = false := by
    cases X with
    | nil => simp [List.isPrefixOf]
    | cons c X =>
      have : c ≠ 'o' := addressChar_ne c 'o' (hX c (List.mem_cons_self _ _)) (by decide)
      have hc2 : ('o' == c) = false := by simpa using fun e => this e.symm
      simp [List.isPrefixOf, hc2]
  rw [h1, h2, h3]
  simp [countOccurrences, List.isPrefixOf, hhead, hrest]

theorem count_clause_head (X T : List Char) (hX : ∀ c ∈ X, c ∈ addressChars) :
    countOccurrences "(ether src host ".data
        ("arp and (".data ++ "(ether src host ".data ++ X ++ ')' :: T)
      = 1 + countOccurrences "(ether src host ".data T := by
  have h2 : "(ether src host ".data
      = ['(', 'e', 't', 'h', 'e', 'r', ' ', 's', 'r', 'c', ' ', 'h', 'o', 's', 't', ' '] := rfl
  have h3 : "arp and (".data = ['a', 'r', 'p', ' ', 'a', 'n', 'd', ' ', '('] := rfl
  have hrest := count_address_close '('
    ['e', 't', 'h', 'e', 'r', ' ', 's', 'r', 'c', ' ', 'h', 'o', 's', 't', ' '] X T
    (by decide) (by decide) hX
  rw [h2, h3]
  simp [countOccurrences, List.isPrefixOf, hrest]

theorem hexDigitAt_mem (n : Nat) : hexDigitAt n ∈ addressChars := by
  by_cases h : n < 16
  · interval_cases n <;> decide
  · have : hexDigitAt n = '0' := by
      unfold hexDigitAt
      exact List.getD_eq_default _ _ (by simpa [hexDigit] using h)
    rw [this]; decide

theorem hardwareAddrChars_mem (a : HardwareAddr) (i : Nat) :
    ∀ c ∈ hardwareAddrChars a i, c ∈ addressChars := by
  induction a generalizing i with
  | nil => intro c hc; simp [hardwareAddrChars] at hc
  | cons b rest ih =>
    intro c hc
    simp only [hardwareAddrChars, List.mem_append, List.mem_cons, List.mem_singleton,
      List.not_mem_nil, or_false] at hc
    rcases hc with (hc | hc | hc) | hc
    · by_cases hi : i > 0
      · simp only [hi, if_true, List.mem_singleton] at hc
        rw [hc]; decide
      · simp [hi] at hc
    · rw [hc]; exact hexDigitAt_mem _
    · rw [hc]; exact hexDigitAt_mem _
    · exact ih _ c hc

theorem canonicalAddress_mem (b : Button) :
    ∀ c ∈ (canonicalAddress b).data, c ∈ addressChars := by
  unfold canonicalAddress
  cases ParseMAC b.MAC with
  | error e => intro c hc; simp at hc
  | ok hw =>
    simp only [HardwareAddr_String]
    by_cases h : hw.length = 0
    · intro c hc; simp [h] at hc
    · simp only [h, if_false]
      exact hardwareAddrChars_mem hw 0

theorem intercalate_go_data (acc s : String) (l : List String) :
    (String.intercalate.go acc s l).data
      = acc.data ++ l.flatMap (fun a => s.data ++ a.data) := by
  induction l generalizing acc with
  | nil => simp [String.intercalate.go]
  | cons a l ih => simp [String.intercalate.go, ih, String.data_append]

theorem count_tail (buttons : List Button) :
    countOccurrences " or ".data
        ((buttons.map sourceClause).flatMap (fun a => " or ".data ++ a.data) ++ [')'])
      = buttons.length
    ∧ countOccurrences "(ether src host ".data
        ((buttons.map sourceClause).flatMap (fun a => " or ".data ++ a.data) ++ [')'])
      = buttons.length := by
  induction buttons with
  | nil => constructor <;> decide
  | cons b rest ih =>
    have hshape : ((b :: rest).map sourceClause).flatMap (fun a => " or ".data ++ a.data)
          ++ [')']
        = " or ".data ++ "(ether src host ".data ++ (canonicalAddress b).data
          ++ ')' :: ((rest.map sourceClause).flatMap (fun a => " or ".data ++ a.data)
            ++ [')']) := by
      simp [sourceClause, String.data_append]
    rw [hshape, count_or_segment _ _ (canonicalAddress_mem b),
      count_clause_segment _ _ (canonicalAddress_mem b), ih.1, ih.2]
    simp only [List.length_cons]
    omega

theorem specFilter_cons_data (b : Button) (rest : List Button) :
    (specFilter (b :: rest)).data
      = "arp and (".data ++ "(ether src host ".data ++ (canonicalAddress b).data
          ++ ')' :: ((rest.map sourceClause).flatMap (fun a => " or ".data ++ a.data)
            ++ [')']) := by
  simp [specFilter, String.intercalate, intercalate_go_data, sourceClause, String.data_append]

theorem count_specFilter (b : Button) (rest : List Button) :
    countOccurrences "(ether src host ".data (specFilter (b :: rest)).data
      = (b :: rest).length
    ∧ countOccurrences " or ".data (specFilter (b :: rest)).data = (b :: rest).length - 1 := by
  rw [specFilter_cons_data, count_clause_head _ _ (canonicalAddress_mem b),
    count_or_head _ _ (canonicalAddress_mem b), (count_tail rest).1, (count_tail rest).2]
  simp only [List.length_cons]
  omega

theorem parseMAC_error (str : String) (err : AddrError) (h : ParseMAC str = .error err) :
    err = ⟨"invalid MAC address", str⟩ := by
  unfold ParseMAC at h
  simp only at h
  split_ifs at h <;> first
    | exact (Except.error.inj h).symm
    | (split at h <;> first
        | exact (Except.error.inj h).symm
        | exact absurd h (by simp))

theorem parseFatal_eq (b : Button) (h : parses b = false) :
    parseFatal b = "Unable to parse MAC: " ++ b.MAC ++ " ("
      ++ (AddrError.mk "invalid MAC address" b.MAC).Error ++ ")\n" := by
  unfold parses at h
  unfold parseFatal
  cases hp : ParseMAC b.MAC with
  | ok hw => simp [hp] at h
  | error err => simp only [parseMAC_error _ _ hp]

theorem find_first_unparsed (pre post : List Button) (b : Button)
    (hpre : ∀ a ∈ pre, parses a = true) (hb : parses b = false) :
    (pre ++ b :: post).find? (fun b => !parses b) = some b := by
  induction pre with
  | nil => simp [List.find?, hb]
  | cons a pre ih =>
    have ha : parses a = true := hpre a (List.mem_cons_self _ _)
    simp only [List.cons_append, List.find?, ha, Bool.not_true]
    exact ih (fun x hx => hpre x (List.mem_cons_of_mem _ hx))

theorem find_unparsed_none (buttons : List Button) (h : ∀ b ∈ buttons, parses b = true) :
    buttons.find? (fun b => !parses b) = none := by
  rw [List.find?_eq_none]
  intro b hb
  simp [h b hb]

/-- C2. For every non-empty device table whose addresses all parse, the filter that `main`
passes on is `arp and (` followed by one clause `(ether src host <canonical address>)` per
device, in table order, joined by ` or `, followed by `)`, where the canonical address is
the string form of the parsed MAC. The string has exactly `n` source-address clauses and
`n - 1` separators ` or ` for `n` devices, and it depends on the device table only. -/
theorem filter_of_parsed_table (configuration : Configuration)
    (hne : configuration.Buttons ≠ [])
    (hparse : ∀ b ∈ configuration.Buttons, parses b = true) :
    main configuration
        = { fatal := none,
            calls := [(configuration.NIC,
              "arp and (" ++ " or ".intercalate (configuration.Buttons.map fun b =>
                "(ether src host " ++ canonicalAddress b ++ ")") ++ ")",
              configuration.Buttons)] }
    ∧ (∀ b ∈ configuration.Buttons,
        ∃ hw, ParseMAC b.MAC = .ok hw ∧ canonicalAddress b = HardwareAddr_String hw)
    ∧ countOccurrences "(ether src host ".data (specFilter configuration.Buttons).data
        = configuration.Buttons.length
    ∧ countOccurrences " or ".data (specFilter configuration.Buttons).data
        = configuration.Buttons.length - 1
    ∧ (∀ other : Configuration, other.Buttons = configuration.Buttons →
        (main other).calls.map (fun c => c.2.1) = [specFilter configuration.Buttons]) := by
  refine ⟨?_, ?_, ?_, ?_, ?_⟩
  · rw [main_eq, find_unparsed_none _ hparse]
    rfl
  · intro b hb
    have hb2 := hparse b hb
    unfold parses at hb2
    unfold canonicalAddress
    cases hp : ParseMAC b.MAC with
    | ok hw => exact ⟨hw, rfl, rfl⟩
    | error err => simp [hp] at hb2
  · cases hB : configuration.Buttons with
    | nil => exact absurd hB hne
    | cons b rest => exact (count_specFilter b rest).1
  · cases hB : configuration.Buttons with
    | nil => exact absurd hB hne
    | cons b rest => exact (count_specFilter b rest).2
  · intro other ho
    rw [main_eq, ho, find_unparsed_none _ hparse]
    rfl

theorem filter_of_parsed_table_witness :
    (twoButtons.Buttons ≠ [] ∧ ∀ b ∈ twoButtons.Buttons, parses b = true)
    ∧ main twoButtons
        = { fatal := none,
            calls := [("eth0",
              "arp and ((ether src host aa:bb:cc:dd:ee:ff) or (ether src host 00:00:5e:00:53:01))",
              twoButtons.Buttons)] } :=
  ⟨⟨by decide, by decide⟩,
    (filter_of_parsed_table twoButtons (by decide) (by decide)).1.trans (by decide)⟩

/-- C7. Filter construction in `main` ends in the fatal error if and only if the MAC
string of at least one device fails to parse; the message is that of the first such
device in table order and names its MAC string, and `capturePackages` is not called. When
every address parses, `capturePackages` is called exactly once, with the interface, the
completed filter and the unmodified device table. -/
theorem main_fatal_iff_unparseable (configuration : Configuration) :
    ((main configuration).fatal.isSome = true
        ↔ ∃ b ∈ configuration.Buttons, parses b = false)
    ∧ (∀ (pre post : List Button) (b : Button),
        configuration.Buttons = pre ++ b :: post →
        (∀ a ∈ pre, parses a = true) → parses b = false →
        main configuration
          = { fatal := some ("Unable to parse MAC: " ++ b.MAC ++ " ("
                ++ (AddrError.mk "invalid MAC address" b.MAC).Error ++ ")\n"),
              calls := [] })
    ∧ ((∀ b ∈ configuration.Buttons, parses b = true) →
        main configuration
          = { fatal := none,
              calls := [(configuration.NIC, specFilter configuration.Buttons,
                configuration.Buttons)] }) := by
  refine ⟨?_, ?_, ?_⟩
  · rw [main_eq]
    cases hf : configuration.Buttons.find? (fun b => !parses b) with
    | some b =>
      have hb := List.find?_some hf
      have hmem := List.mem_of_find?_eq_some hf
      simp only [Option.isSome_some, true_iff]
      exact ⟨b, hmem, by simpa using hb⟩
    | none =>
      rw [List.find?_eq_none] at hf
      simp only [Option.isSome_none, Bool.false_eq_true, false_iff]
      rintro ⟨b, hb, hp⟩
      exact hf b hb (by simp [hp])
  · intro pre post b hB hpre hb
    rw [main_eq, hB, find_first_unparsed pre post b hpre hb]
    simp only [parseFatal_eq b hb]
  · intro h
    rw [main_eq, find_unparsed_none _ h]

/-- C5, as amended. For the empty device table `main` builds exactly `arp and ()`, the ARP
restriction around an empty parenthesised operand, and calls `capturePackages` with it. -/
theorem empty_table_filter (NIC : String) :
    main ⟨[], NIC⟩ = { fatal := none, calls := [(NIC, "arp and ()", [])] } := by
  rfl

/-- C5, counterexample. For the empty device table the filter built in `main` has an empty
parenthesised operand: it is malformed. -/
theorem empty_table_filter_malformed :
    ∃ filter, (main ⟨[], "eth0"⟩).calls = [("eth0", filter, [])]
      ∧ hasEmptyOperand filter = true :=
  ⟨"arp and ()", by decide, by decide⟩

/-! ## Theorems: the dispatch task -/

theorem commandsOf_append (xs ys : List Effect) :
    commandsOf (xs ++ ys) = commandsOf xs ++ commandsOf ys := by
  induction xs with
  | nil => rfl
  | cons e xs ih => cases e <;> simp [commandsOf, ih]

theorem requestsOf_append (xs ys : List Effect) :
    requestsOf (xs ++ ys) = requestsOf xs ++ requestsOf ys := by
  induction xs with
  | nil => rfl
  | cons e xs ih => cases e <;> simp [requestsOf, ih]

theorem headerLoop_quiet (env : Env) (entries : List (String × String))
    (req : Option Request) :
    commandsOf (headerLoop env entries req).1 = []
    ∧ requestsOf (headerLoop env entries req).1 = [] := by
  induction entries generalizing req with
  | nil => exact ⟨rfl, rfl⟩
  | cons e entries ih =>
    obtain ⟨key, value⟩ := e
    cases req with
    | none => exact ⟨rfl, rfl⟩
    | some r =>
      simp only [headerLoop, commandsOf, requestsOf]
      exact ih _

theorem doRequest_commands (env : Env) (url : String) (req : Request) :
    commandsOf (doRequest env url req) = [] := by
  unfold doRequest
  cases env.clientDo req with
  | error err => rfl
  | ok res =>
    obtain ⟨r, c⟩ := res
    cases r <;> cases c <;> rfl

theorem doRequest_requests (env : Env) (url : String) (req : Request) :
    requestsOf (doRequest env url req) = [req] := by
  unfold doRequest
  cases env.clientDo req with
  | error err => rfl
  | ok res =>
    obtain ⟨r, c⟩ := res
    cases r <;> cases c <;> rfl

theorem sending_quiet (body : Option String) :
    commandsOf (match body with
      | some b => [Effect.log ("Sending data: " ++ b)]
      | none => []) = []
    ∧ requestsOf (match body with
      | some b => [Effect.log ("Sending data: " ++ b)]
      | none => []) = [] := by
  cases body <;> exact ⟨rfl, rfl⟩

theorem addHeaders_quiet (env : Env) (header : StringMap) (req : Option Request) :
    commandsOf (addHeaders env header req).1 = []
    ∧ requestsOf (addHeaders env header req).1 = [] := by
  cases header with
  | none => exact ⟨rfl, rfl⟩
  | some entries =>
    simp only [addHeaders, commandsOf, requestsOf]
    exact headerLoop_quiet env entries req

theorem addHeaders_nil_request (env : Env) (header : StringMap) :
    (addHeaders env header none).2 = .ok none
    ∨ (addHeaders env header none).2 = .error .nilPointerDereference := by
  cases header with
  | none => exact Or.inl rfl
  | some entries =>
    cases entries with
    | nil => exact Or.inl rfl
    | cons e entries => exact Or.inr rfl

theorem headerLoop_some (env : Env) (entries : List (String × String)) (r : Request) :
    (headerLoop env entries (some r)).2
      = .ok (some { r with
          Header := entries.foldl (fun h kv => Header.Set env h kv.1 kv.2) r.Header }) := by
  induction entries generalizing r with
  | nil => rfl
  | cons e entries ih =>
    obtain ⟨key, value⟩ := e
    simp only [headerLoop, List.foldl_cons]
    exact ih _

theorem addHeaders_some (env : Env) (header : StringMap) (r : Request) :
    (addHeaders env header (some r)).2
      = .ok (some { r with
          Header := (header.getD []).foldl (fun h kv => Header.Set env h kv.1 kv.2)
            r.Header }) := by
  cases header with
  | none => rfl
  | some entries =>
    simp only [addHeaders, Option.getD_some]
    exact headerLoop_some env entries r

theorem makeRequest_direct_built (env : Env) (url method : String)
    (header data : StringMap) (r0 : Request)
    (h0 : NewRequest env method url ((env.jsonMarshal data).getD "") = some r0) :
    (makeRequest env url "" method header data).panic = none
    ∧ requestsOf (makeRequest env url "" method header data).effects
        = [{ r0 with
             Header := Header.Set env
               ((header.getD []).foldl (fun h kv => Header.Set env h kv.1 kv.2) r0.Header)
               "Content-Type" "application/json" }]
    ∧ ∃ logs : List Effect,
        commandsOf logs = [] ∧ requestsOf logs = []
        ∧ (makeRequest env url "" method header data).effects
          = logs ++ doRequest env url
              { r0 with
                Header := Header.Set env
                  ((header.getD []).foldl (fun h kv => Header.Set env h kv.1 kv.2)
                    r0.Header)
                  "Content-Type" "application/json" } := by
  have hq := addHeaders_quiet env header (some r0)
  have hs := sending_quiet (env.jsonMarshal data)
  have hloop := addHeaders_some env header r0
  rcases h : addHeaders env header (some r0) with ⟨adding, looped⟩
  rw [h] at hq hloop
  simp only at hloop hq
  subst hloop
  refine ⟨?_, ?_, ?_⟩
  · simp only [makeRequest, ne_eq, not_true_eq_false, if_false, h0, h]
  · simp only [makeRequest, ne_eq, not_true_eq_false, if_false, h0, h, requestsOf_append,
      hs.2, hq.2, doRequest_requests, List.nil_append]
  · refine ⟨(match env.jsonMarshal data with
        | some b => [Effect.log ("Sending data: " ++ b)]
        | none => []) ++ adding, ?_, ?_, ?_⟩
    · simp only [commandsOf_append, hs.1, hq.1, List.append_nil]
    · simp only [requestsOf_append, hs.2, hq.2, List.append_nil]
    · simp only [makeRequest, ne_eq, not_true_eq_false, if_false, h0, h]

theorem makeRequest_direct_unbuilt (env : Env) (url method : String)
    (header data : StringMap)
    (h0 : NewRequest env method url ((env.jsonMarshal data).getD "") = none) :
    (makeRequest env url "" method header data).panic = some .nilPointerDereference
    ∧ requestsOf (makeRequest env url "" method header data).effects = [] := by
  have hq := addHeaders_quiet env header none
  have hs := sending_quiet (env.jsonMarshal data)
  simp only [makeRequest, ne_eq, not_true_eq_false, if_false, h0]
  rcases h : addHeaders env header none with ⟨adding, looped⟩
  rw [h] at hq
  rcases addHeaders_nil_request env header with h2 | h2
  · rw [h] at h2
    simp only at h2
    subst h2
    exact ⟨rfl, by simp only [requestsOf_append, hs.2, hq.2, List.append_nil]⟩
  · rw [h] at h2
    simp only at h2
    subst h2
    exact ⟨rfl, by simp only [requestsOf_append, hs.2, hq.2, List.append_nil]⟩

/-- C8. The task `makeRequest` builds the command `curl -u <username> --digest <url>` if
and only if the username is not empty; in that case it sends no HTTP request of its own
and its whole run is the same for every method, header and data. With an empty username
it builds no command and takes the direct HTTP path: when `http.NewRequest` yields a
request, the run ends without panic in `client.Do` on exactly that request, with the
configured headers and `Content-Type: application/json` set, preceded only by log lines;
when it yields none, nothing is sent and the run ends in the nil pointer panic. -/
theorem makeRequest_curl_iff_username (env : Env) (url username method : String)
    (header data : StringMap) :
    commandsOf (makeRequest env url username method header data).effects
        = (if username ≠ "" then [("curl", ["-u", username, "--digest", url])] else [])
    ∧ (username ≠ "" →
        requestsOf (makeRequest env url username method header data).effects = []
        ∧ ∀ (method2 : String) (header2 data2 : StringMap),
            makeRequest env url username method2 header2 data2
              = makeRequest env url username method header data)
    ∧ (username = "" →
        commandsOf (makeRequest env url username method header data).effects = []
        ∧ match NewRequest env method url ((env.jsonMarshal data).getD "") with
          | some r0 =>
            (makeRequest env url username method header data).panic = none
            ∧ requestsOf (makeRequest env url username method header data).effects
                = [{ r0 with
                     Header := Header.Set env
                       ((header.getD []).foldl (fun h kv => Header.Set env h kv.1 kv.2)
                         r0.Header)
                       "Content-Type" "application/json" }]
            ∧ ∃ logs : List Effect,
                commandsOf logs = [] ∧ requestsOf logs = []
                ∧ (makeRequest env url username method header data).effects
                  = logs ++ doRequest env url
                      { r0 with
                        Header := Header.Set env
                          ((header.getD []).foldl
                            (fun h kv => Header.Set env h kv.1 kv.2) r0.Header)
                          "Content-Type" "application/json" }
          | none =>
            (makeRequest env url username method header data).panic
                = some .nilPointerDereference
            ∧ requestsOf (makeRequest env url username method header data).effects
                = []) := by
  by_cases hu : username = ""
  · have hdirect : commandsOf (makeRequest env url username method header data).effects
        = [] := by
      have hq := addHeaders_quiet env header
        (NewRequest env method url ((env.jsonMarshal data).getD ""))
      have hs := sending_quiet (env.jsonMarshal data)
      simp only [makeRequest, hu, ne_eq, not_true_eq_false, if_false]
      rcases h : addHeaders env header
        (NewRequest env method url ((env.jsonMarshal data).getD "")) with ⟨adding, looped⟩
      rw [h] at hq
      rcases looped with p | _ | r
      · simp only [commandsOf_append, hs.1, hq.1, List.append_nil]
      · simp only [commandsOf_append, hs.1, hq.1, List.append_nil]
      · simp only [commandsOf_append, hs.1, hq.1, doRequest_commands, List.append_nil]
    refine ⟨?_, fun h => absurd hu h, fun _ => ⟨hdirect, ?_⟩⟩
    · rw [hdirect]; simp [hu]
    · subst hu
      cases h0 : NewRequest env method url ((env.jsonMarshal data).getD "") with
      | none => exact makeRequest_direct_unbuilt env url method header data h0
      | some r0 => exact makeRequest_direct_built env url method header data r0 h0
  · refine ⟨?_, fun _ => ⟨?_, ?_⟩, fun h => absurd h hu⟩
    · simp only [makeRequest, hu, ne_eq, not_false_eq_true, if_true]
      cases env.curlOutput ["-u", username, "--digest", url] <;> rfl
    · simp only [makeRequest, hu, ne_eq, not_false_eq_true, if_true]
      cases env.curlOutput ["-u", username, "--digest", url] <;> rfl
    · intro method2 header2 data2
      simp only [makeRequest, hu, ne_eq, not_false_eq_true, if_true]

/-- C9 (the code departs from the claim). With an empty username and the method
`BAD METHOD`, `http.NewRequest` returns a nil request; its error is not looked at, and
`makeRequest` panics on `req.Header.Set` without having sent anything or logged the
failure. The same holds whenever the request cannot be built, for instance for a URL that
does not parse. -/
theorem makeRequest_unbuilt_request_panics (env : Env) (url : String)
    (header data : StringMap) :
    (makeRequest env url "" "BAD METHOD" header data).panic
        = some .nilPointerDereference
    ∧ requestsOf (makeRequest env url "" "BAD METHOD" header data).effects = []
    ∧ (∀ method : String,
        NewRequest env method url ((env.jsonMarshal data).getD "") = none →
        (makeRequest env url "" method header data).panic = some .nilPointerDereference) := by
  have general : ∀ method : String,
      NewRequest env method url ((env.jsonMarshal data).getD "") = none →
      (makeRequest env url "" method header data).panic = some .nilPointerDereference
      ∧ requestsOf (makeRequest env url "" method header data).effects = [] := by
    intro method hnil
    have hq := addHeaders_quiet env header none
    have hs := sending_quiet (env.jsonMarshal data)
    simp only [makeRequest, ne_eq, not_true_eq_false, if_false, hnil]
    rcases h : addHeaders env header none with ⟨adding, looped⟩
    rw [h] at hq
    rcases addHeaders_nil_request env header with h2 | h2
    · rw [h] at h2
      simp only at h2
      subst h2
      exact ⟨rfl, by simp only [requestsOf_append, hs.2, hq.2, List.append_nil]⟩
    · rw [h] at h2
      simp only at h2
      subst h2
      exact ⟨rfl, by simp only [requestsOf_append, hs.2, hq.2, List.append_nil]⟩
  have hbad : NewRequest env "BAD METHOD" url ((env.jsonMarshal data).getD "") = none := by
    have hv : validMethod "BAD METHOD" = false := by decide
    simp [NewRequest, hv]
  exact ⟨(general _ hbad).1, (general _ hbad).2, fun m hm => (general m hm).1⟩

theorem lookup_filter_ne (h : Header) (k c : String) (hne : k ≠ c) :
    (h.filter (fun e => e.1 ≠ c)).lookup k = h.lookup k := by
  induction h with
  | nil => rfl
  | cons e h ih =>
    obtain ⟨ek, ev⟩ := e
    by_cases hc : ek = c
    · have hk : (k == ek) = false := by simpa [hc] using hne
      rw [List.filter_cons_of_neg (by simpa using hc), ih]
      simp only [List.lookup_cons, hk]
    · rw [List.filter_cons_of_pos (by simpa using hc)]
      simp only [List.lookup_cons, ih]

theorem set_values (env : Env) (h : Header) (key value k : String) :
    Header.values (Header.Set env h key value) k
      = if env.canonicalKey key = k then some [value] else Header.values h k := by
  unfold Header.values Header.Set
  by_cases hk : env.canonicalKey key = k
  · simp [List.lookup, hk]
  · have hk2 : (k == env.canonicalKey key) = false := by simpa using fun e => hk e.symm
    simp only [List.lookup, hk2, hk, if_false]
    exact lookup_filter_ne h k _ (fun e => hk e.symm)

theorem foldl_set_values (env : Env) (entries : List (String × String)) (h : Header)
    (ck value : String)
    (hall : ∀ kv ∈ entries, env.canonicalKey kv.1 = ck → kv.2 = value)
    (hex : Header.values h ck = some [value] ∨ ∃ kv ∈ entries, env.canonicalKey kv.1 = ck) :
    Header.values (entries.foldl (fun h kv => Header.Set env h kv.1 kv.2) h) ck
      = some [value] := by
  induction entries generalizing h with
  | nil =>
    rcases hex with hh | ⟨kv, hkv, _⟩
    · exact hh
    · simp at hkv
  | cons e entries ih =>
    simp only [List.foldl_cons]
    apply ih
    · exact fun kv hkv => hall kv (List.mem_cons_of_mem _ hkv)
    · rw [set_values]
      by_cases he : env.canonicalKey e.1 = ck
      · left
        simp [he, hall e (List.mem_cons_self _ _) he]
      · simp only [he, if_false]
        rcases hex with hh | ⟨kv, hkv, hck⟩
        · exact Or.inl hh
        · right
          rcases List.mem_cons.mp hkv with hkv | hkv
          · exact absurd (hkv ▸ hck) he
          · exact ⟨kv, hkv, hck⟩

/-- C10, as amended. For every action with an empty username for which the request can be
built, `makeRequest` hands exactly one request to `client.Do`. Its method is the
configured method, or `GET` when the configured method is empty; its body is the JSON
serialisation of the data mapping; under the canonical key of `Content-Type` its header
holds `application/json`, whatever was configured for that key; and every other
configured header key holds, under its canonical form, its configured value, as long as
no other configured key with the same canonical form has a different value. -/
theorem direct_request_contents (env : Env) (url method : String) (header data : StringMap)
    (hbuilt : (NewRequest env method url ((env.jsonMarshal data).getD "")).isSome = true) :
    ∃ req : Request,
      requestsOf (makeRequest env url "" method header data).effects = [req]
      ∧ (makeRequest env url "" method header data).panic = none
      ∧ req.Method = (if method = "" then "GET" else method)
      ∧ req.Body = (env.jsonMarshal data).getD ""
      ∧ Header.values req.Header (env.canonicalKey "Content-Type")
          = some ["application/json"]
      ∧ ∀ entries, header = some entries → ∀ kv ∈ entries,
          env.canonicalKey kv.1 ≠ env.canonicalKey "Content-Type" →
          (∀ kv2 ∈ entries,
            env.canonicalKey kv2.1 = env.canonicalKey kv.1 → kv2.2 = kv.2) →
          Header.values req.Header (env.canonicalKey kv.1) = some [kv.2] := by
  obtain ⟨r0, hr0⟩ := Option.isSome_iff_exists.mp hbuilt
  have hshape : r0 =
      { Method := (if method = "" then "GET" else method),
        URL := url,
        Header := [],
        Body := (env.jsonMarshal data).getD "" } := by
    unfold NewRequest at hr0
    simp only at hr0
    split_ifs at hr0 <;> simp_all
  have hq := addHeaders_quiet env header (some r0)
  have hs := sending_quiet (env.jsonMarshal data)
  have hloop := addHeaders_some env header r0
  rcases h : addHeaders env header (some r0) with ⟨adding, looped⟩
  rw [h] at hq hloop
  simp only at hloop hq
  subst hloop
  refine ⟨{ r0 with
      Header := Header.Set env
        ((header.getD []).foldl (fun h kv => Header.Set env h kv.1 kv.2) r0.Header)
        "Content-Type" "application/json" }, ?_, ?_, ?_, ?_, ?_, ?_⟩
  · simp only [makeRequest, ne_eq, not_true_eq_false, if_false, hr0, h, requestsOf_append,
      hs.2, hq.2, doRequest_requests, List.nil_append]
  · simp only [makeRequest, ne_eq, not_true_eq_false, if_false, hr0, h]
  · rw [hshape]
  · rw [hshape]
  · simp only [set_values, if_true]
  · intro entries hentries kv hkv hct hall
    subst hentries
    simp only [set_values, Option.getD_some]
    rw [if_neg (fun e => hct e.symm)]
    exact foldl_set_values env entries _ _ _ hall (Or.inr ⟨kv, hkv, rfl⟩)

theorem direct_request_contents_witness :
    (NewRequest offlineEnv "POST" "http://example.test/trigger"
        ((offlineEnv.jsonMarshal none).getD "")).isSome = true
    ∧ ∃ req : Request,
      requestsOf (makeRequest offlineEnv "http://example.test/trigger" "" "POST"
          (some [("X-Token", "abc")]) none).effects = [req]
      ∧ (makeRequest offlineEnv "http://example.test/trigger" "" "POST"
          (some [("X-Token", "abc")]) none).panic = none
      ∧ req.Method = (if "POST" = "" then "GET" else "POST")
      ∧ req.Body = (offlineEnv.jsonMarshal none).getD ""
      ∧ Header.values req.Header (offlineEnv.canonicalKey "Content-Type")
          = some ["application/json"]
      ∧ ∀ entries, some [("X-Token", "abc")] = some entries → ∀ kv ∈ entries,
          offlineEnv.canonicalKey kv.1 ≠ offlineEnv.canonicalKey "Content-Type" →
          (∀ kv2 ∈ entries,
            offlineEnv.canonicalKey kv2.1 = offlineEnv.canonicalKey kv.1 → kv2.2 = kv.2) →
          Header.values req.Header (offlineEnv.canonicalKey kv.1) = some [kv.2] :=
  ⟨by decide,
    direct_request_contents offlineEnv "http://example.test/trigger" "POST"
      (some [("X-Token", "abc")]) none (by decide)⟩

/-- C10, counterexample. With an empty username, an empty method and the configured
header `Content-Type: text/plain`, the request is built and sent, but its method is `GET`
and under `Content-Type` it holds `application/json`, not the configured value. (The
environment agrees with the Go library at this input: the URL parses, `Content-Type` is
its own canonical form, and a nil map is serialised as `null`.) -/
theorem configured_content_type_replaced :
    ∃ req : Request,
      requestsOf (makeRequest offlineEnv "http://example.test/trigger" "" ""
          (some [("Content-Type", "text/plain")]) none).effects = [req]
      ∧ req.Method = "GET"
      ∧ Header.values req.Header "Content-Type" = some ["application/json"]
      ∧ Header.values req.Header "Content-Type" ≠ some ["text/plain"] :=
  ⟨{ Method := "GET", URL := "http://example.test/trigger",
     Header := [("Content-Type", ["application/json"])], Body := "null" },
    by decide, rfl, by decide, by decide⟩

end Godash
